import Mathlib

/-!
Verification of the thumbnail/concurrency core of the LandGorilla pdf.js
viewer fork.  The definitions below are shallow embeddings of:

* `web/concurrency_queue.js` — `ConcurrencyQueue` (bounded-parallelism task
  runner), modelled as a small-step transition system in which task
  completion order is chosen nondeterministically by the scheduler;
* `web/pdf_thumbnail_view.js` — the per-thumbnail render state machine
  (`setPdfPage`, `reset`, `cancelRendering`, `draw`, `#finishRenderTask`);
* `web/pdf_thumbnail_viewer.js` — `_onThumbnailDrop` (drag-and-drop page
  move), `renumberDocsAndPages`, and `#getScrollAhead`.

DOM construction, canvas drawing and the image downsampling pipeline are
side effects on external collaborators; they are represented only by the
state they leave on the model (e.g. an `imageLoaded` flag standing for the
placeholder→image swap performed by `#convertCanvasToImage`).
-/

namespace PdfJs

/-! ## `web/pdf_thumbnail_view.js`: the render state machine -/

/-- `RenderingStates` from `web/ui_utils.js` (INITIAL/RUNNING/PAUSED/FINISHED). -/
inductive RenderingStates where
  | INITIAL
  | RUNNING
  | PAUSED
  | FINISHED
deriving DecidableEq, Repr

/-- The slice of a `PDFPageProxy` the thumbnail view reads: its intrinsic
`rotate` property.  `getViewport({scale, rotation})` is modelled as
constructing a `Viewport` record from those two arguments. -/
structure PdfPage where
  rotate : Nat
deriving DecidableEq, Repr

/-- A viewport as produced by `pdfPage.getViewport({scale, rotation})`:
the model keeps the two parameters the thumbnail code passes in. -/
structure Viewport where
  scale : Nat
  rotation : Nat
deriving DecidableEq, Repr

/-- The state of a `PDFThumbnailView` relevant to the render lifecycle.
`renderTask` holds the identity token of the in-flight render task
(`this.renderTask`); `resume` records whether a resume continuation is
stored; `imageLoaded` stands for the `data-loaded` attribute / the
placeholder having been replaced by the rasterized image
(`#convertCanvasToImage`). -/
structure ThumbView where
  renderingState : RenderingStates
  pdfPage : Option PdfPage
  rotation : Nat
  pdfPageRotate : Nat
  viewport : Viewport
  renderTask : Option Nat
  resume : Bool
  imageLoaded : Bool
deriving DecidableEq, Repr

namespace ThumbView

/-- `cancelRendering()`: cancels the in-flight render task if present and
clears `resume`.  Returns the updated view together with the token of the
task that got cancelled (`renderTask.cancel()` was invoked on it). -/
def cancelRendering (v : ThumbView) : ThumbView × Option Nat :=
  ({ v with renderTask := none, resume := false }, v.renderTask)

/-- `reset()`: cancel rendering, go back to INITIAL, and swap the image
back for the placeholder (`data-loaded` removed, `image` deleted). -/
def reset (v : ThumbView) : ThumbView × Option Nat :=
  let (v1, cancelled) := v.cancelRendering
  ({ v1 with renderingState := RenderingStates.INITIAL, imageLoaded := false },
   cancelled)

/-- `setPdfPage(pdfPage)`: binds the page, records its intrinsic rotation,
computes the viewport at `scale: 1` and
`rotation: (this.rotation + this.pdfPageRotate) % 360`, then `reset()`s.
Returns the updated view and the token of any render task cancelled by the
reset. -/
def setPdfPage (v : ThumbView) (pdfPage : PdfPage) : ThumbView × Option Nat :=
  let v1 : ThumbView :=
    { v with
      pdfPage := some pdfPage
      pdfPageRotate := pdfPage.rotate
      viewport :=
        { scale := 1, rotation := (v.rotation + pdfPage.rotate) % 360 } }
  v1.reset

/-- `update({rotation})`: optionally store a new user rotation, re-clone the
viewport at the combined rotation, then `reset()`. -/
def update (v : ThumbView) (rotation : Option Nat) : ThumbView × Option Nat :=
  let v1 : ThumbView :=
    match rotation with
    | some r => { v with rotation := r }
    | none => v
  let v2 : ThumbView :=
    { v1 with
      viewport :=
        { scale := 1, rotation := (v1.rotation + v1.pdfPageRotate) % 360 } }
  v2.reset

/-- How the promise returned by the async `draw()` settles on each of its
early paths, before any rendering work happens:
* `notInitial` — the `renderingState !== INITIAL` guard: `console.error`
  then `return undefined`, so the promise *fulfills* with `undefined`;
* `threwNoPage` — `throw new Error("pdfPage is not loaded")` inside the
  async function, so the promise *rejects*;
* `started t` — a render task with token `t` was created and the view is
  now RUNNING. -/
inductive DrawOutcome where
  | notInitial
  | threwNoPage
  | started (taskId : Nat)
deriving DecidableEq, Repr

/-- An async function's promise rejects exactly when the function throws;
`return undefined` fulfills it. -/
def DrawOutcome.isRejection : DrawOutcome → Bool
  | .threwNoPage => true
  | _ => false

/-- The synchronous prefix of `draw()` (up to and including creating the
render task and entering RUNNING).  `newTaskId` is the identity token of
the render task `pdfPage.render(renderContext)` would return. -/
def draw (v : ThumbView) (newTaskId : Nat) : ThumbView × DrawOutcome :=
  if v.renderingState ≠ RenderingStates.INITIAL then
    (v, DrawOutcome.notInitial)
  else
    match v.pdfPage with
    | none =>
        ({ v with renderingState := RenderingStates.FINISHED },
         DrawOutcome.threwNoPage)
    | some _ =>
        ({ v with
            renderingState := RenderingStates.RUNNING
            renderTask := some newTaskId },
         DrawOutcome.started newTaskId)

/-- The error argument `#finishRenderTask` receives when the render task's
promise rejected: either the distinguished `RenderingCancelledException`
or any other error (carrying its message). -/
inductive RenderError where
  | cancelled
  | other (msg : String)
deriving DecidableEq, Repr

/-- How `#finishRenderTask` itself settles: silently (cancellation path),
normally, or by rethrowing the error. -/
inductive FinishOutcome where
  | silent
  | completed
  | rethrew (msg : String)
deriving DecidableEq, Repr

/-- `#convertCanvasToImage(canvas)`: throws unless the view is FINISHED;
otherwise swaps the placeholder for the rasterized image
(`data-loaded := true`). -/
def convertCanvasToImage (v : ThumbView) : Except String ThumbView :=
  if v.renderingState ≠ RenderingStates.FINISHED then
    Except.error "#convertCanvasToImage: Rendering has not finished."
  else
    Except.ok { v with imageLoaded := true }

/-- `#finishRenderTask(renderTask, canvas, error)`: clears `this.renderTask`
only if it is still the task that triggered the callback; returns silently
on `RenderingCancelledException`; otherwise marks FINISHED, converts the
canvas to the thumbnail image, and rethrows a non-null error. -/
def finishRenderTask (v : ThumbView) (taskId : Nat) (error : Option RenderError) :
    ThumbView × FinishOutcome :=
  let v1 : ThumbView :=
    if v.renderTask = some taskId then { v with renderTask := none } else v
  match error with
  | some RenderError.cancelled => (v1, FinishOutcome.silent)
  | _ =>
      let v2 : ThumbView := { v1 with renderingState := RenderingStates.FINISHED }
      match v2.convertCanvasToImage with
      | Except.error msg => (v2, FinishOutcome.rethrew msg)
      | Except.ok v3 =>
          match error with
          | some (RenderError.other msg) => (v3, FinishOutcome.rethrew msg)
          | _ => (v3, FinishOutcome.completed)

end ThumbView

/-! ## `web/pdf_thumbnail_viewer.js`: `#getScrollAhead` -/

/-- `#getScrollAhead(visible)` reads only `visible.first?.id` and
`visible.last?.id`; the model passes those two (optional) ids, the number
of thumbnails (`this._thumbnails.length`) and the last known scroll
direction (`this.scroll.down`). -/
def getScrollAhead (visibleFirstId visibleLastId : Option Nat)
    (numThumbnails : Nat) (scrollDown : Bool) : Bool :=
  if visibleFirstId = some 1 then
    true
  else if visibleLastId = some numThumbnails then
    false
  else
    scrollDown

/-! ## `web/pdf_thumbnail_viewer.js`: the Document/Page grouping model -/

/-- An entry of a Document's `pages` array in `documentsData`. -/
structure Page where
  id : String
  pageNumber : Nat
  rotation : Nat
deriving DecidableEq, Repr

/-- An entry of `documentsData`. -/
structure Document where
  id : String
  pages : List Page
deriving DecidableEq, Repr

/-- `l.splice(i, 1)` on an array, keeping the array after removal.
JavaScript clamps `i` to the array length, so an out-of-range `i`
removes nothing. -/
def spliceRemove (l : List α) (i : Nat) : List α :=
  l.take i ++ l.drop (i + 1)

/-- `l.splice(i, 0, a)` on an array: insert `a` at `i`, clamping `i` to
`[0, l.length]` (so `i ≥ length` appends at the end). -/
def spliceInsert (l : List α) (i : Nat) (a : α) : List α :=
  l.take i ++ a :: l.drop i

/-- Apply `f` to the `pages` array of the document at index `i`, in
place, leaving the rest of `documentsData` untouched (an index past the
end changes nothing). -/
def modifyPagesAt (docs : List Document) (i : Nat) (f : List Page → List Page) :
    List Document :=
  match docs, i with
  | [], _ => []
  | d :: rest, 0 => { d with pages := f d.pages } :: rest
  | d :: rest, Nat.succ i => d :: modifyPagesAt rest i f

/-- The page `fromDoc.pages[oldIndex]` the drop handler is about to move,
if the indices are in range. -/
def getPageAt (docs : List Document) (docIdx pageIdx : Nat) : Option Page :=
  docs[docIdx]?.bind fun d => d.pages[pageIdx]?

/-- `_onThumbnailDrop`: locate the source and destination documents by the
ids of the surrounding `.document-container`s (`findIndex` over
`documentsData`), `splice` the page out of the source's `pages` at
`oldIndex` and `splice` it into the destination's `pages` at `newIndex`.
When source and destination coincide the two splices hit the same
document in sequence, exactly as the aliased in-place mutation does.
(When `oldIndex` is out of range JavaScript would splice `undefined` into
the destination; the model leaves the destination unchanged instead —
the theorems below only concern in-range moves.) -/
def onThumbnailDrop (docs : List Document) (fromDocId toDocId : String)
    (oldIndex newIndex : Nat) : List Document :=
  let fromIdx := docs.findIdx fun d => d.id == fromDocId
  let toIdx := docs.findIdx fun d => d.id == toDocId
  let movedPage := getPageAt docs fromIdx oldIndex
  let docs1 := modifyPagesAt docs fromIdx fun ps => spliceRemove ps oldIndex
  match movedPage with
  | some p => modifyPagesAt docs1 toIdx fun ps => spliceInsert ps newIndex p
  | none => docs1

/-- All pages of all documents, in container order (the flattening
`documentsData.flatMap(doc => doc.pages)` the renumbering pass walks). -/
def allPages : List Document → List Page
  | [] => []
  | d :: rest => d.pages ++ allPages rest

/-- The inner loop of `renumberDocsAndPages`: walk `doc.pages`, giving the
page at position `pageIndex` the id `doc-<docIndex>-page-<pageIndex>` and
the next global page number.  Returns the updated pages and the global
counter after the loop. -/
def renumberPagesInDoc (docIndex : Nat) (pages : List Page)
    (pageIndex globalPageNumber : Nat) : List Page × Nat :=
  match pages with
  | [] => ([], globalPageNumber)
  | p :: rest =>
      let p' : Page :=
        { p with
          id := s!"doc-{docIndex}-page-{pageIndex}"
          pageNumber := globalPageNumber }
      let (rest', g') :=
        renumberPagesInDoc docIndex rest (pageIndex + 1) (globalPageNumber + 1)
      (p' :: rest', g')

/-- The outer loop of `renumberDocsAndPages` over `documentsData`,
threading the global page counter through the documents. -/
def renumberDocsFrom (docs : List Document) (docIndex globalPageNumber : Nat) :
    List Document × Nat :=
  match docs with
  | [] => ([], globalPageNumber)
  | d :: rest =>
      let (pages', g') := renumberPagesInDoc docIndex d.pages 0 globalPageNumber
      let (rest', g'') := renumberDocsFrom rest (docIndex + 1) g'
      ({ d with pages := pages' } :: rest', g'')

/-- `renumberDocsAndPages()`: reassign every page's id and `pageNumber`
(global numbering starting at 1) by flattening all documents' page
sequences in container order.  The synchronisation of each thumbnail's
DOM id and label with its page (the `_thumbnails.findIndex` lookup) only
mirrors the page assignments and is not part of the page model. -/
def renumberDocsAndPages (docs : List Document) : List Document :=
  (renumberDocsFrom docs 0 1).1

/-! ## `web/concurrency_queue.js`: `ConcurrencyQueue`

A task handed to `addTask` is an argumentless function returning a
promise; all the queue observes of it is how its promise eventually
settles, so a task is modelled by that settled outcome (`α` is the type
of fulfillment values).  The event loop interleaves completion events in
an arbitrary order; that nondeterminism is a step relation `Step`, each
step being one task's `.then/.catch/.finally` handler chain followed by
the synchronous `runNext()` it triggers. -/

/-- A task as the queue observes it: its promise either fulfills with a
value or rejects with an error message. -/
inductive TaskSpec (α : Type) where
  | ok (v : α)
  | err (msg : String)
deriving DecidableEq, Repr

/-- An entry of `this.results`: either a task's fulfillment value or the
`{error: message}` object written by the `.catch` handler. -/
inductive TResult (α : Type) where
  | ok (v : α)
  | error (msg : String)
deriving DecidableEq, Repr

/-- The results entry a settled task produces: `.then` stores the value,
`.catch` stores `{error: error.message}`. -/
def TaskSpec.result : TaskSpec α → TResult α
  | .ok v => TResult.ok v
  | .err m => TResult.error m

/-- The mutable state of a `ConcurrencyQueue` during `run()`.  `results`
is the sparse results array (`none` = hole); `active` lists the started
but not yet settled tasks with the index each was assigned; `resolved`
records whether `resolve(this.results)` has been called. -/
structure QState (α : Type) where
  queue : List (TaskSpec α)
  activeCount : Nat
  results : Nat → Option (TResult α)
  currentIndex : Nat
  active : List (Nat × TaskSpec α)
  resolved : Bool

/-- The `while (this.activeCount < this.concurrency && this.queue.length > 0)`
loop of `runNext`, recursing on the pending queue `q` (always the `queue`
field of `s`): shift the next task, assign it `currentIndex++`, bump
`activeCount`, and start it (it joins `active`). -/
def fillGo (concurrency : Nat) (q : List (TaskSpec α)) (s : QState α) : QState α :=
  match q with
  | [] => { s with queue := [] }
  | task :: rest =>
      if s.activeCount < concurrency then
        fillGo concurrency rest
          { queue := rest
            activeCount := s.activeCount + 1
            results := s.results
            currentIndex := s.currentIndex + 1
            active := s.active ++ [(s.currentIndex, task)]
            resolved := s.resolved }
      else { s with queue := q }

/-- The slot-filling loop of `runNext` on the state's own queue. -/
def fillSlots (concurrency : Nat) (s : QState α) : QState α :=
  fillGo concurrency s.queue s

/-- `runNext()`: if no tasks are left and none are active, resolve the
promise; otherwise fill the free concurrency slots. -/
def runNext (concurrency : Nat) (s : QState α) : QState α :=
  if s.queue.length = 0 ∧ s.activeCount = 0 then { s with resolved := true }
  else fillSlots concurrency s

/-- The queue right after the constructor plus `addTask` for each element
of `tasks`, before `run()` is called. -/
def initState (tasks : List (TaskSpec α)) : QState α :=
  { queue := tasks
    activeCount := 0
    results := fun _ => none
    currentIndex := 0
    active := []
    resolved := false }

/-- The state after the synchronous part of `run()` (its initial
`runNext()` call). -/
def startRun (concurrency : Nat) (tasks : List (TaskSpec α)) : QState α :=
  runNext concurrency (initState tasks)

/-- The state after the active task `(i, t)` settles: its `.then`/`.catch`
handler writes `results[taskIndex]`, its `.finally` decrements
`activeCount` and calls `runNext()`. -/
def settled [DecidableEq α] (concurrency : Nat) (s : QState α) (i : Nat)
    (t : TaskSpec α) : QState α :=
  runNext concurrency
    { queue := s.queue
      activeCount := s.activeCount - 1
      results := fun j => if j = i then some t.result else s.results j
      currentIndex := s.currentIndex
      active := s.active.erase (i, t)
      resolved := s.resolved }

/-- One event-loop step: the scheduler picks any active task and settles
it (completion order is arbitrary). -/
inductive Step [DecidableEq α] (concurrency : Nat) : QState α → QState α → Prop where
  | settle (s : QState α) (i : Nat) (t : TaskSpec α) (hmem : (i, t) ∈ s.active) :
      Step concurrency s (settled concurrency s i t)

/-- The states a queue started on `tasks` can reach. -/
inductive Reachable [DecidableEq α] (concurrency : Nat) (tasks : List (TaskSpec α)) :
    QState α → Prop where
  | init : Reachable concurrency tasks (startRun concurrency tasks)
  | step {s s' : QState α} : Reachable concurrency tasks s →
      Step concurrency s s' → Reachable concurrency tasks s'

/-- The inductive invariant tying a queue state back to the submitted task
list `tasks`:  the pending queue is the not-yet-started suffix of `tasks`
(tasks are started in submission order, `currentIndex` many so far); the
active list holds started, unsettled tasks under their submission index,
each index at most once; `activeCount` is the instrumented counter of
active tasks and never exceeds the concurrency limit; `results` holds
exactly the settled outcomes, at the settled tasks' submission indices;
and the promise is resolved only once everything has drained. -/
structure Inv [DecidableEq α] (concurrency : Nat) (tasks : List (TaskSpec α))
    (s : QState α) : Prop where
  queue_eq : s.queue = tasks.drop s.currentIndex
  idx_le : s.currentIndex ≤ tasks.length
  activeCount_eq : s.activeCount = s.active.length
  active_started : ∀ p ∈ s.active, p.1 < s.currentIndex
  active_task : ∀ p ∈ s.active, tasks[p.1]? = some p.2
  active_nodup : (s.active.map Prod.fst).Nodup
  results_spec : ∀ i, s.results i =
    if i < s.currentIndex ∧ i ∉ s.active.map Prod.fst
    then (tasks[i]?).map TaskSpec.result else none
  active_le : s.activeCount ≤ concurrency
  resolved_drained : s.resolved = true → s.queue = [] ∧ s.active = []

/-- What additionally holds right after any `runNext()` returns (every
state the event loop observes): admission is greedy — free slots are
refilled whenever pending tasks remain — and the promise is resolved as
soon as the queue drains. -/
structure PostInv [DecidableEq α] (concurrency : Nat) (tasks : List (TaskSpec α))
    (s : QState α) extends Inv concurrency tasks s : Prop where
  greedy : s.queue = [] ∨ s.activeCount = concurrency
  drained_resolved : s.queue = [] → s.activeCount = 0 → s.resolved = true

/-! ## Concrete states used to exercise the theorems -/

/-- A thumbnail view with a render in flight (RUNNING, task token 5). -/
def vRunningExample : ThumbView :=
  { renderingState := RenderingStates.RUNNING
    pdfPage := some { rotate := 0 }
    rotation := 0
    pdfPageRotate := 0
    viewport := { scale := 1, rotation := 0 }
    renderTask := some 5
    resume := false
    imageLoaded := false }

/-- A freshly constructed thumbnail view: INITIAL, no page bound yet. -/
def vInitialNoPageExample : ThumbView :=
  { renderingState := RenderingStates.INITIAL
    pdfPage := none
    rotation := 90
    pdfPageRotate := 0
    viewport := { scale := 1, rotation := 0 }
    renderTask := none
    resume := false
    imageLoaded := false }

/-- Two documents, "A" with three pages and "B" with two: the drag-and-drop
scenario of the spec (§8). -/
def docsExample : List Document :=
  [ { id := "A"
      pages :=
        [ { id := "doc-0-page-0", pageNumber := 1, rotation := 0 }
        , { id := "doc-0-page-1", pageNumber := 2, rotation := 0 }
        , { id := "doc-0-page-2", pageNumber := 3, rotation := 0 } ] }
  , { id := "B"
      pages :=
        [ { id := "doc-1-page-0", pageNumber := 4, rotation := 0 }
        , { id := "doc-1-page-1", pageNumber := 5, rotation := 90 } ] } ]

/-- Three tasks for a concurrency-2 queue; the second one rejects. -/
def tasksExample : List (TaskSpec Nat) :=
  [TaskSpec.ok 1, TaskSpec.err "boom", TaskSpec.ok 3]

/-- `run()` called on `tasksExample` with concurrency 2: tasks 0 and 1
start immediately. -/
def qs0 : QState Nat := startRun 2 tasksExample

/-- Task 1 (the rejecting one) settles first — out of submission order —
and task 2 is admitted. -/
def qs1 : QState Nat := settled 2 qs0 1 (TaskSpec.err "boom")

/-- Task 2 settles next. -/
def qs2 : QState Nat := settled 2 qs1 2 (TaskSpec.ok 3)

/-- Task 0 settles last; the queue drains and the promise resolves. -/
def qs3 : QState Nat := settled 2 qs2 0 (TaskSpec.ok 1)

end PdfJs

namespace PdfJs

/-! ## C4, C5, C6, C10: the thumbnail render state machine -/

/-- C4 counterexample: `draw()` on a RUNNING view does not reject — the
guard branch is `console.error(...); return undefined;`, which fulfills
the async function's promise with `undefined` rather than rejecting it. -/
theorem draw_running_does_not_reject :
    vRunningExample.renderingState ≠ RenderingStates.INITIAL ∧
    (vRunningExample.draw 0).2.isRejection = false := by
  decide

/-- C4 (amended): `draw()` on a view whose `renderingState` is not INITIAL
returns early with `undefined` (the promise resolves, it does not reject),
leaving the view completely unchanged — no state transition and no new
render task. -/
theorem draw_not_initial_is_noop (v : ThumbView) (taskId : Nat)
    (h : v.renderingState ≠ RenderingStates.INITIAL) :
    (v.draw taskId).1 = v ∧
    (v.draw taskId).2 = ThumbView.DrawOutcome.notInitial ∧
    (v.draw taskId).2.isRejection = false := by
  simp [ThumbView.draw, ThumbView.DrawOutcome.isRejection, h]

/-- Witness for `draw_not_initial_is_noop` at the RUNNING example view. -/
theorem draw_not_initial_is_noop_witness :
    (vRunningExample.draw 0).1 = vRunningExample ∧
    (vRunningExample.draw 0).2 = ThumbView.DrawOutcome.notInitial ∧
    (vRunningExample.draw 0).2.isRejection = false :=
  draw_not_initial_is_noop vRunningExample 0 (by decide)

/-- C5: when the render task settles, `#finishRenderTask` silently returns
on a `RenderingCancelledException`, leaving `renderingState` (and the
placeholder) untouched; on any other error it still marks the view
FINISHED, converts the canvas to the thumbnail image, and rethrows the
error. -/
theorem finishRenderTask_spec (v : ThumbView) (taskId : Nat) :
    ((v.finishRenderTask taskId (some ThumbView.RenderError.cancelled)).1.renderingState
        = v.renderingState ∧
      (v.finishRenderTask taskId (some ThumbView.RenderError.cancelled)).1.imageLoaded
        = v.imageLoaded ∧
      (v.finishRenderTask taskId (some ThumbView.RenderError.cancelled)).2
        = ThumbView.FinishOutcome.silent) ∧
    (∀ msg : String,
      (v.finishRenderTask taskId (some (ThumbView.RenderError.other msg))).1.renderingState
        = RenderingStates.FINISHED ∧
      (v.finishRenderTask taskId (some (ThumbView.RenderError.other msg))).1.imageLoaded
        = true ∧
      (v.finishRenderTask taskId (some (ThumbView.RenderError.other msg))).2
        = ThumbView.FinishOutcome.rethrew msg) := by
  by_cases h : v.renderTask = some taskId <;>
    simp [ThumbView.finishRenderTask, ThumbView.convertCanvasToImage, h]

/-- C6: `setPdfPage(page)` binds the page, sets the viewport rotation to
`(userRotation + intrinsicPageRotation) % 360`, resets the view to the
INITIAL state, and cancels any in-flight render task (the cancelled token
is exactly the previous `renderTask`, and no task remains). -/
theorem setPdfPage_spec (v : ThumbView) (page : PdfPage) :
    (v.setPdfPage page).1.pdfPage = some page ∧
    (v.setPdfPage page).1.pdfPageRotate = page.rotate ∧
    (v.setPdfPage page).1.viewport.rotation = (v.rotation + page.rotate) % 360 ∧
    (v.setPdfPage page).1.renderingState = RenderingStates.INITIAL ∧
    (v.setPdfPage page).1.renderTask = none ∧
    (v.setPdfPage page).2 = v.renderTask := by
  simp [ThumbView.setPdfPage, ThumbView.reset, ThumbView.cancelRendering]

/-- C10: `draw()` on an INITIAL view with no bound `pdfPage` sets the
rendering state directly to FINISHED and throws
`Error("pdfPage is not loaded")` (the returned promise rejects); no render
task is created. -/
theorem draw_initial_no_page (v : ThumbView) (taskId : Nat)
    (hstate : v.renderingState = RenderingStates.INITIAL)
    (hpage : v.pdfPage = none) :
    (v.draw taskId).1.renderingState = RenderingStates.FINISHED ∧
    (v.draw taskId).2 = ThumbView.DrawOutcome.threwNoPage ∧
    (v.draw taskId).2.isRejection = true ∧
    (v.draw taskId).1.renderTask = v.renderTask := by
  simp [ThumbView.draw, ThumbView.DrawOutcome.isRejection, hstate, hpage]

/-- Witness for `draw_initial_no_page` at a never-bound INITIAL view. -/
theorem draw_initial_no_page_witness :
    (vInitialNoPageExample.draw 3).1.renderingState = RenderingStates.FINISHED ∧
    (vInitialNoPageExample.draw 3).2 = ThumbView.DrawOutcome.threwNoPage ∧
    (vInitialNoPageExample.draw 3).2.isRejection = true ∧
    (vInitialNoPageExample.draw 3).1.renderTask = vInitialNoPageExample.renderTask :=
  draw_initial_no_page vInitialNoPageExample 3 (by decide) (by decide)

/-! ## C9: `#getScrollAhead` -/

/-- C9: the scroll-ahead boolean is `true` when the first visible entry is
the very first thumbnail (id 1); otherwise `false` when the last visible
entry is the very last thumbnail; otherwise the last known scroll
direction. -/
theorem getScrollAhead_spec (visibleFirstId visibleLastId : Option Nat)
    (numThumbnails : Nat) (scrollDown : Bool) :
    (visibleFirstId = some 1 →
      getScrollAhead visibleFirstId visibleLastId numThumbnails scrollDown = true) ∧
    (visibleFirstId ≠ some 1 → visibleLastId = some numThumbnails →
      getScrollAhead visibleFirstId visibleLastId numThumbnails scrollDown = false) ∧
    (visibleFirstId ≠ some 1 → visibleLastId ≠ some numThumbnails →
      getScrollAhead visibleFirstId visibleLastId numThumbnails scrollDown = scrollDown) := by
  refine ⟨fun h1 => ?_, fun h1 h2 => ?_, fun h1 h2 => ?_⟩
  · simp [getScrollAhead, h1]
  · simp [getScrollAhead, h1, h2]
  · simp [getScrollAhead, h1, h2]

/-- Witness for `getScrollAhead_spec`: the last visible entry is the last
thumbnail (and the first is not id 1), so scroll-ahead is `false` even
though the last scroll direction was down. -/
theorem getScrollAhead_spec_witness :
    getScrollAhead (some 3) (some 5) 5 true = false :=
  (getScrollAhead_spec (some 3) (some 5) 5 true).2.1 (by decide) rfl

/-! ## C7: `_onThumbnailDrop` conserves the pages -/

/-- Splicing an element in is a permutation of consing it on. -/
theorem spliceInsert_perm (l : List α) (i : Nat) (a : α) :
    (spliceInsert l i a).Perm (a :: l) := by
  show (l.take i ++ a :: l.drop i).Perm (a :: l)
  conv_rhs => rw [← List.take_append_drop i l]
  exact List.perm_middle

/-- A list is a permutation of its element at `i` consed onto the list
with that element spliced out. -/
theorem perm_cons_spliceRemove {l : List α} {i : Nat} {x : α}
    (h : l[i]? = some x) : l.Perm (x :: spliceRemove l i) := by
  obtain ⟨hi, hx⟩ := List.getElem?_eq_some_iff.mp h
  have hdrop : l.drop i = x :: l.drop (i + 1) := by
    rw [List.drop_eq_getElem_cons hi, hx]
  have hsplit : l = l.take i ++ x :: l.drop (i + 1) := by
    conv_lhs => rw [← List.take_append_drop i l, hdrop]
  conv_lhs => rw [hsplit]
  show (l.take i ++ x :: l.drop (i + 1)).Perm (x :: spliceRemove l i)
  exact List.perm_middle

/-- `modifyPagesAt` keeps the number of documents. -/
theorem length_modifyPagesAt (docs : List Document) (i : Nat)
    (f : List Page → List Page) :
    (modifyPagesAt docs i f).length = docs.length := by
  induction docs generalizing i with
  | nil => rfl
  | cons d rest ih =>
      cases i with
      | zero => rfl
      | succ i => simp [modifyPagesAt, ih]

/-- Removing the page at `(i, oldI)` splits it off the flattened page
list, up to permutation. -/
theorem allPages_spliceRemove {docs : List Document} {i oldI : Nat} {x : Page}
    (h : getPageAt docs i oldI = some x) :
    (allPages docs).Perm
      (x :: allPages (modifyPagesAt docs i fun ps => spliceRemove ps oldI)) := by
  induction docs generalizing i with
  | nil => simp [getPageAt] at h
  | cons d rest ih =>
      cases i with
      | zero =>
          simp only [getPageAt, List.getElem?_cons_zero, Option.bind_some] at h
          have hp := perm_cons_spliceRemove h
          simpa [allPages, modifyPagesAt] using hp.append_right (allPages rest)
      | succ i =>
          have h' : getPageAt rest i oldI = some x := by
            simpa [getPageAt] using h
          have hp := ih h'
          simp only [allPages, modifyPagesAt]
          exact (hp.append_left d.pages).trans List.perm_middle

/-- Inserting a page into the document at `i` conses it onto the
flattened page list, up to permutation. -/
theorem allPages_spliceInsert (docs : List Document) (i newI : Nat) (x : Page)
    (h : i < docs.length) :
    (x :: allPages docs).Perm
      (allPages (modifyPagesAt docs i fun ps => spliceInsert ps newI x)) := by
  induction docs generalizing i with
  | nil => simp at h
  | cons d rest ih =>
      cases i with
      | zero =>
          simpa [allPages, modifyPagesAt] using
            ((spliceInsert_perm d.pages newI x).append_right (allPages rest)).symm
      | succ i =>
          have hi : i < rest.length := by simpa using h
          simp only [allPages, modifyPagesAt]
          exact List.perm_middle.symm.trans ((ih i hi).append_left d.pages)

/-- C7: a drag-and-drop page move (page present at `oldIndex` of the
source document, destination document present) permutes the flattened
page list — no page is lost or duplicated — and in particular the total
page count over all documents is conserved.  The statement covers the
case of source and destination being the same document. -/
theorem onThumbnailDrop_conserves (docs : List Document)
    (fromDocId toDocId : String) (oldIndex newIndex : Nat)
    (ht : docs.findIdx (fun d => d.id == toDocId) < docs.length)
    (hx : (getPageAt docs (docs.findIdx fun d => d.id == fromDocId) oldIndex).isSome) :
    (allPages (onThumbnailDrop docs fromDocId toDocId oldIndex newIndex)).Perm
        (allPages docs) ∧
    (allPages (onThumbnailDrop docs fromDocId toDocId oldIndex newIndex)).length
        = (allPages docs).length := by
  obtain ⟨x, hxeq⟩ := Option.isSome_iff_exists.mp hx
  have hremove := allPages_spliceRemove hxeq
  have hlen :
      (modifyPagesAt docs (docs.findIdx fun d => d.id == fromDocId)
          fun ps => spliceRemove ps oldIndex).length = docs.length :=
    length_modifyPagesAt ..
  have hinsert :=
    allPages_spliceInsert
      (modifyPagesAt docs (docs.findIdx fun d => d.id == fromDocId)
        fun ps => spliceRemove ps oldIndex)
      (docs.findIdx fun d => d.id == toDocId) newIndex x (hlen ▸ ht)
  have hperm :
      (allPages (onThumbnailDrop docs fromDocId toDocId oldIndex newIndex)).Perm
        (allPages docs) := by
    simp only [onThumbnailDrop, hxeq]
    exact (hinsert.symm.trans hremove.symm)
  exact ⟨hperm, hperm.length_eq⟩

/-- Witness for `onThumbnailDrop_conserves`: moving the third page of
document "A" to the front of document "B". -/
theorem onThumbnailDrop_conserves_witness :
    (allPages (onThumbnailDrop docsExample "A" "B" 2 0)).Perm
        (allPages docsExample) ∧
    (allPages (onThumbnailDrop docsExample "A" "B" 2 0)).length
        = (allPages docsExample).length :=
  onThumbnailDrop_conserves docsExample "A" "B" 2 0 (by decide) (by decide)

/-! ## C8: `renumberDocsAndPages` flattens and is idempotent -/

/-- The inner renumbering loop assigns the consecutive page numbers
`globalPageNumber, …, globalPageNumber + pages.length - 1` and leaves the
counter past them. -/
theorem renumberPagesInDoc_numbers (docIndex : Nat) (pages : List Page)
    (pageIndex g : Nat) :
    ((renumberPagesInDoc docIndex pages pageIndex g).1.map Page.pageNumber
        = List.range' g pages.length) ∧
    (renumberPagesInDoc docIndex pages pageIndex g).2 = g + pages.length := by
  induction pages generalizing pageIndex g with
  | nil => simp [renumberPagesInDoc]
  | cons p rest ih =>
      have h := ih (pageIndex + 1) (g + 1)
      simp [renumberPagesInDoc, h.1, h.2, List.range'_succ]
      omega

/-- The inner renumbering loop is idempotent: re-running it over its own
output (same document index, start page index and counter) changes
nothing. -/
theorem renumberPagesInDoc_idem (docIndex : Nat) (pages : List Page)
    (pageIndex g : Nat) :
    renumberPagesInDoc docIndex
        (renumberPagesInDoc docIndex pages pageIndex g).1 pageIndex g
      = renumberPagesInDoc docIndex pages pageIndex g := by
  induction pages generalizing pageIndex g with
  | nil => rfl
  | cons p rest ih =>
      simp [renumberPagesInDoc, ih]

/-- The outer renumbering loop assigns the page numbers
`g, …, g + (total pages) - 1` across the flattened documents. -/
theorem renumberDocsFrom_numbers (docs : List Document) (docIndex g : Nat) :
    ((allPages (renumberDocsFrom docs docIndex g).1).map Page.pageNumber
        = List.range' g (allPages docs).length) ∧
    (renumberDocsFrom docs docIndex g).2 = g + (allPages docs).length := by
  induction docs generalizing docIndex g with
  | nil => simp [renumberDocsFrom, allPages]
  | cons d rest ih =>
      have hp := renumberPagesInDoc_numbers docIndex d.pages 0 g
      have hr := ih (docIndex + 1) (renumberPagesInDoc docIndex d.pages 0 g).2
      rw [hp.2] at hr
      constructor
      · simp only [renumberDocsFrom, allPages, List.map_append, hp.1, hp.2,
          List.length_append]
        rw [hr.1, List.range'_append_1, Nat.add_comm]
      · simp only [renumberDocsFrom, allPages, hp.2, List.length_append]
        rw [hr.2]
        omega

/-- The outer renumbering loop is idempotent. -/
theorem renumberDocsFrom_idem (docs : List Document) (docIndex g : Nat) :
    renumberDocsFrom (renumberDocsFrom docs docIndex g).1 docIndex g
      = renumberDocsFrom docs docIndex g := by
  induction docs generalizing docIndex g with
  | nil => rfl
  | cons d rest ih =>
      simp [renumberDocsFrom, renumberPagesInDoc_idem, ih]

/-- C8: `renumberDocsAndPages` assigns consecutive 1-based page numbers in
flattening (container) order, and running it twice in a row yields exactly
the same document/page assignments (page ids included) as running it
once. -/
theorem renumberDocsAndPages_spec (docs : List Document) :
    ((allPages (renumberDocsAndPages docs)).map Page.pageNumber
        = List.range' 1 (allPages docs).length) ∧
    renumberDocsAndPages (renumberDocsAndPages docs) = renumberDocsAndPages docs := by
  constructor
  · exact (renumberDocsFrom_numbers docs 0 1).1
  · simpa [renumberDocsAndPages] using
      congrArg Prod.fst (renumberDocsFrom_idem docs 0 1)

/-! ## C1, C2, C3: the ConcurrencyQueue invariants -/

/-- The slot-filling loop preserves the queue invariant (called on the
state's own queue). -/
theorem fillGo_inv {α : Type} [DecidableEq α] {concurrency : Nat}
    {tasks : List (TaskSpec α)}
    (q : List (TaskSpec α)) (s : QState α) (hq : s.queue = q)
    (hinv : Inv concurrency tasks s) :
    Inv concurrency tasks (fillGo concurrency q s) := by
  induction q generalizing s with
  | nil =>
      have hid : ({ s with queue := [] } : QState α) = s := by
        cases s
        simp_all
      rw [fillGo, hid]
      exact hinv
  | cons task rest ih =>
      by_cases hlt : s.activeCount < concurrency
      · rw [fillGo, if_pos hlt]
        have hqdrop : tasks.drop s.currentIndex = task :: rest := by
          rw [← hinv.queue_eq, hq]
        have hci : s.currentIndex < tasks.length := by
          by_contra hge
          rw [List.drop_eq_nil_of_le (Nat.not_lt.mp hge)] at hqdrop
          exact List.noConfusion hqdrop
        have hsplit : task :: rest
            = tasks[s.currentIndex] :: tasks.drop (s.currentIndex + 1) :=
          hqdrop.symm.trans (List.drop_eq_getElem_cons hci)
        have hhead : task = tasks[s.currentIndex] := (List.cons.inj hsplit).1
        have htail : rest = tasks.drop (s.currentIndex + 1) := (List.cons.inj hsplit).2
        have hnotin : s.currentIndex ∉ s.active.map Prod.fst := by
          intro hmem
          obtain ⟨p, hp, hfst⟩ := List.mem_map.mp hmem
          exact absurd (hfst ▸ hinv.active_started p hp) (Nat.lt_irrefl _)
        refine ih _ rfl ⟨htail, hci, ?_, ?_, ?_, ?_, ?_, hlt, ?_⟩
        · simp [hinv.activeCount_eq]
        · intro p hp
          rcases List.mem_append.mp hp with h | h
          · exact Nat.lt_succ_of_lt (hinv.active_started p h)
          · rcases List.mem_singleton.mp h with rfl
            exact Nat.lt_succ_self _
        · intro p hp
          rcases List.mem_append.mp hp with h | h
          · exact hinv.active_task p h
          · rcases List.mem_singleton.mp h with rfl
            rw [List.getElem?_eq_getElem hci, hhead]
        · rw [List.map_append]
          refine List.nodup_append.mpr ⟨hinv.active_nodup, ?_, ?_⟩
          · simp
          · intro a ha hb
            simp only [List.map_cons, List.map_nil, List.mem_singleton] at hb
            exact hnotin (hb ▸ ha)
        · intro i
          have hiff : (i < s.currentIndex ∧ i ∉ s.active.map Prod.fst) ↔
              (i < s.currentIndex + 1 ∧
                i ∉ (s.active ++ [(s.currentIndex, task)]).map Prod.fst) := by
            simp only [List.map_append, List.map_cons, List.map_nil, List.mem_append,
              List.mem_singleton, not_or]
            constructor
            · rintro ⟨h1, h2⟩
              exact ⟨Nat.lt_succ_of_lt h1, h2, by omega⟩
            · rintro ⟨h1, h2, h3⟩
              exact ⟨by omega, h2⟩
          show s.results i = if i < s.currentIndex + 1 ∧
              i ∉ (s.active ++ [(s.currentIndex, task)]).map Prod.fst
            then (tasks[i]?).map TaskSpec.result else none
          rw [hinv.results_spec i, if_congr hiff rfl rfl]
        · intro hres
          have := (hinv.resolved_drained hres).1
          rw [hq] at this
          exact List.noConfusion this
      · rw [fillGo, if_neg hlt]
        have hid : ({ s with queue := task :: rest } : QState α) = s := by
          cases s
          simp_all
        rw [hid]
        exact hinv

/-- After the slot-filling loop, either the queue is empty or all
concurrency slots are in use. -/
theorem fillGo_full {α : Type} (concurrency : Nat) (q : List (TaskSpec α))
    (s : QState α) :
    (fillGo concurrency q s).queue = [] ∨
      ¬ (fillGo concurrency q s).activeCount < concurrency := by
  induction q generalizing s with
  | nil => left; rw [fillGo]
  | cons task rest ih =>
      by_cases hlt : s.activeCount < concurrency
      · rw [fillGo, if_pos hlt]
        exact ih _
      · rw [fillGo, if_neg hlt]
        exact Or.inr hlt

/-- The slot-filling loop does not touch the resolved flag. -/
theorem fillGo_resolved {α : Type} (concurrency : Nat) (q : List (TaskSpec α))
    (s : QState α) :
    (fillGo concurrency q s).resolved = s.resolved := by
  induction q generalizing s with
  | nil => rw [fillGo]
  | cons task rest ih =>
      by_cases hlt : s.activeCount < concurrency
      · rw [fillGo, if_pos hlt]
        exact ih _
      · rw [fillGo, if_neg hlt]

/-- The slot-filling loop moves tasks from the queue to the active list:
the total number of unsettled tasks is unchanged. -/
theorem fillGo_sum {α : Type} (concurrency : Nat) (q : List (TaskSpec α))
    (s : QState α) :
    (fillGo concurrency q s).queue.length + (fillGo concurrency q s).active.length
      = q.length + s.active.length := by
  induction q generalizing s with
  | nil => rw [fillGo]
  | cons task rest ih =>
      by_cases hlt : s.activeCount < concurrency
      · rw [fillGo, if_pos hlt, ih]
        show rest.length + (s.active ++ [(s.currentIndex, task)]).length
          = (task :: rest).length + s.active.length
        simp only [List.length_append, List.length_cons, List.length_nil]
        omega
      · rw [fillGo, if_neg hlt]

/-- If the slot-filling loop ends with nothing pending and nothing
active, nothing was pending or active to begin with. -/
theorem fillGo_drained {α : Type} (concurrency : Nat) (q : List (TaskSpec α))
    (s : QState α)
    (h1 : (fillGo concurrency q s).queue = [])
    (h2 : (fillGo concurrency q s).activeCount = 0) :
    q = [] ∧ s.activeCount = 0 := by
  induction q generalizing s with
  | nil =>
      rw [fillGo] at h2
      exact ⟨rfl, h2⟩
  | cons task rest ih =>
      by_cases hlt : s.activeCount < concurrency
      · rw [fillGo, if_pos hlt] at h1 h2
        obtain ⟨-, habs⟩ := ih _ h1 h2
        have habs' : s.activeCount + 1 = 0 := habs
        exact absurd habs' (by omega)
      · rw [fillGo, if_neg hlt] at h1
        exact List.noConfusion h1

/-- `runNext()` preserves the invariant and re-establishes the post
conditions every event-loop observation point enjoys. -/
theorem runNext_postinv {α : Type} [DecidableEq α] {concurrency : Nat}
    {tasks : List (TaskSpec α)} {s : QState α}
    (hinv : Inv concurrency tasks s) :
    PostInv concurrency tasks (runNext concurrency s) := by
  by_cases hcond : s.queue.length = 0 ∧ s.activeCount = 0
  · have hrn : runNext concurrency s = { s with resolved := true } := by
      rw [runNext, if_pos hcond]
    have hqnil : s.queue = [] := List.length_eq_zero.mp hcond.1
    have hanil : s.active = [] :=
      List.length_eq_zero.mp (hinv.activeCount_eq ▸ hcond.2)
    rw [hrn]
    exact
      { queue_eq := hinv.queue_eq
        idx_le := hinv.idx_le
        activeCount_eq := hinv.activeCount_eq
        active_started := hinv.active_started
        active_task := hinv.active_task
        active_nodup := hinv.active_nodup
        results_spec := hinv.results_spec
        active_le := hinv.active_le
        resolved_drained := fun _ => ⟨hqnil, hanil⟩
        greedy := Or.inl hqnil
        drained_resolved := fun _ _ => rfl }
  · have hrn : runNext concurrency s = fillGo concurrency s.queue s := by
      rw [runNext, if_neg hcond]
      rfl
    rw [hrn]
    have hfill := fillGo_inv s.queue s rfl hinv
    refine { toInv := hfill, greedy := ?_, drained_resolved := ?_ }
    · rcases fillGo_full concurrency s.queue s with h | h
      · exact Or.inl h
      · exact Or.inr (Nat.le_antisymm hfill.active_le (Nat.not_lt.mp h))
    · intro hq0 ha0
      obtain ⟨hq, ha⟩ := fillGo_drained concurrency s.queue s hq0 ha0
      exact absurd ⟨by rw [hq]; rfl, ha⟩ hcond

/-- If the indices in `l` are pairwise distinct and `(i, t) ∈ l`, then
after erasing `(i, t)` the index `i` is gone. -/
theorem notin_map_fst_erase {β : Type} [DecidableEq β]
    (l : List (Nat × β)) (i : Nat) (t : β)
    (hnd : (l.map Prod.fst).Nodup) (hmem : (i, t) ∈ l) :
    i ∉ (l.erase (i, t)).map Prod.fst := by
  induction l with
  | nil => exact absurd hmem (List.not_mem_nil _)
  | cons p rest ih =>
      rw [List.map_cons] at hnd
      have hnd1 : p.1 ∉ rest.map Prod.fst := (List.nodup_cons.mp hnd).1
      have hnd2 : (rest.map Prod.fst).Nodup := (List.nodup_cons.mp hnd).2
      by_cases hp : p = (i, t)
      · subst hp
        rw [List.erase_cons_head]
        exact hnd1
      · have hmem' : (i, t) ∈ rest := by
          rcases List.mem_cons.mp hmem with h | h
          · exact absurd h.symm hp
          · exact h
        rw [List.erase_cons_tail (by simpa using hp)]
        intro hin
        rcases List.mem_cons.mp (List.map_cons Prod.fst p (rest.erase (i, t)) ▸ hin)
          with h | h
        · exact hnd1 (h ▸ List.mem_map.mpr ⟨(i, t), hmem', rfl⟩)
        · exact ih hnd2 hmem' h

/-- A settle step preserves the post-invariant. -/
theorem step_postinv {α : Type} [DecidableEq α] {concurrency : Nat}
    {tasks : List (TaskSpec α)} {s s' : QState α}
    (hpost : PostInv concurrency tasks s) (hstep : Step concurrency s s') :
    PostInv concurrency tasks s' := by
  obtain ⟨i, t, hmem⟩ := hstep
  have hinv := hpost.toInv
  have hi_lt : i < s.currentIndex := hinv.active_started (i, t) hmem
  have hti : tasks[i]? = some t := hinv.active_task (i, t) hmem
  have hlen_pos : 0 < s.active.length := List.length_pos.mpr (by
    intro h
    rw [h] at hmem
    exact List.not_mem_nil _ hmem)
  have herase_len : (s.active.erase (i, t)).length = s.active.length - 1 :=
    List.length_erase_of_mem hmem
  have hsubl : (s.active.erase (i, t)).Sublist s.active := List.erase_sublist _ _
  have hsub : ∀ p ∈ s.active.erase (i, t), p ∈ s.active := fun p hp =>
    hsubl.mem hp
  have hnotin : i ∉ (s.active.erase (i, t)).map Prod.fst :=
    notin_map_fst_erase s.active i t hinv.active_nodup hmem
  have hmem_iff : ∀ j, j ≠ i →
      (j ∈ (s.active.erase (i, t)).map Prod.fst ↔ j ∈ s.active.map Prod.fst) := by
    intro j hji
    constructor
    · intro h
      obtain ⟨p, hp, hfst⟩ := List.mem_map.mp h
      exact List.mem_map.mpr ⟨p, hsub _ hp, hfst⟩
    · intro h
      obtain ⟨⟨j', u⟩, hp, heq⟩ := List.mem_map.mp h
      cases heq
      refine List.mem_map.mpr ⟨(j', u), ?_, rfl⟩
      exact (List.mem_erase_of_ne (by
        intro h
        exact hji (congrArg Prod.fst h))).mpr hp
  refine runNext_postinv
    { queue_eq := hinv.queue_eq
      idx_le := hinv.idx_le
      activeCount_eq := ?_
      active_started := fun p hp => hinv.active_started p (hsub p hp)
      active_task := fun p hp => hinv.active_task p (hsub p hp)
      active_nodup := hinv.active_nodup.sublist (hsubl.map Prod.fst)
      results_spec := ?_
      active_le := Nat.le_trans (Nat.sub_le _ _) hinv.active_le
      resolved_drained := ?_ }
  · show s.activeCount - 1 = (s.active.erase (i, t)).length
    rw [herase_len, hinv.activeCount_eq]
  · intro j
    show (if j = i then some t.result else s.results j) = _
    by_cases hj : j = i
    · cases hj
      rw [if_pos rfl, if_pos ⟨hi_lt, hnotin⟩, hti]
      rfl
    · rw [if_neg hj, hinv.results_spec j,
        if_congr (and_congr_right fun _ => not_congr (hmem_iff j hj).symm) rfl rfl]
  · intro hres
    obtain ⟨-, ha⟩ := hinv.resolved_drained hres
    rw [ha] at hmem
    exact absurd hmem (List.not_mem_nil _)

/-- Every reachable state of a running queue satisfies the
post-invariant. -/
theorem reachable_postinv {α : Type} [DecidableEq α] {concurrency : Nat}
    {tasks : List (TaskSpec α)} {s : QState α}
    (h : Reachable concurrency tasks s) : PostInv concurrency tasks s := by
  induction h with
  | init =>
      refine runNext_postinv
        { queue_eq := (List.drop_zero tasks).symm
          idx_le := Nat.zero_le _
          activeCount_eq := rfl
          active_started := fun p hp => absurd hp (List.not_mem_nil p)
          active_task := fun p hp => absurd hp (List.not_mem_nil p)
          active_nodup := List.nodup_nil
          results_spec := fun i => by
            show (none : Option (TResult α))
              = if i < 0 ∧ i ∉ (([] : List (Nat × TaskSpec α)).map Prod.fst)
                then (tasks[i]?).map TaskSpec.result else none
            simp
          active_le := Nat.zero_le _
          resolved_drained := fun h => Bool.noConfusion h }
  | step _ hs ih => exact step_postinv ih hs

/-- At any reachable resolved state the results array is exactly the
submitted tasks' outcomes, indexed by submission order (and `none` — no
entry — past the number of submitted tasks). -/
theorem resolved_results {α : Type} [DecidableEq α] {concurrency : Nat}
    {tasks : List (TaskSpec α)} {s : QState α}
    (hreach : Reachable concurrency tasks s) (hres : s.resolved = true) :
    ∀ i, s.results i = (tasks[i]?).map TaskSpec.result := by
  have hpost := reachable_postinv hreach
  obtain ⟨hq, ha⟩ := hpost.resolved_drained hres
  have hlen : tasks.length ≤ s.currentIndex :=
    List.drop_eq_nil_iff.mp (hq ▸ hpost.queue_eq.symm)
  intro i
  rw [hpost.results_spec i, ha]
  by_cases hi : i < s.currentIndex
  · simp [hi]
  · rw [if_neg (by simp [hi]), List.getElem?_eq_none (by omega)]
    rfl

/-- `runNext()` moves tasks from the queue to the active list but never
changes the total number of unsettled tasks. -/
theorem runNext_sum {α : Type} (concurrency : Nat) (s : QState α) :
    (runNext concurrency s).queue.length + (runNext concurrency s).active.length
      = s.queue.length + s.active.length := by
  by_cases hcond : s.queue.length = 0 ∧ s.activeCount = 0
  · rw [runNext, if_pos hcond]
  · have hrn : runNext concurrency s = fillGo concurrency s.queue s := by
      rw [runNext, if_neg hcond]
      rfl
    rw [hrn, fillGo_sum]

/-- A settle step reduces the number of unsettled tasks by exactly one. -/
theorem settled_sum {α : Type} [DecidableEq α] (concurrency : Nat)
    (s : QState α) (i : Nat) (t : TaskSpec α) (hmem : (i, t) ∈ s.active) :
    (settled concurrency s i t).queue.length
        + (settled concurrency s i t).active.length + 1
      = s.queue.length + s.active.length := by
  have hpos : 0 < s.active.length := List.length_pos.mpr (by
    intro h
    rw [h] at hmem
    exact List.not_mem_nil _ hmem)
  rw [settled, runNext_sum]
  show s.queue.length + (s.active.erase (i, t)).length + 1 = _
  rw [List.length_erase_of_mem hmem]
  omega

/-- From any post-invariant state of a queue with at least one
concurrency slot, some scheduling of the remaining completions drains the
queue and resolves the promise. -/
theorem drain_exists {α : Type} [DecidableEq α] {concurrency : Nat}
    {tasks : List (TaskSpec α)} (hc : 1 ≤ concurrency) :
    ∀ n (s : QState α), PostInv concurrency tasks s →
      s.queue.length + s.active.length = n →
      ∃ s', Relation.ReflTransGen (Step concurrency) s s' ∧ s'.resolved = true := by
  intro n
  induction n using Nat.strong_induction_on with
  | _ n ih =>
      intro s hpost hn
      by_cases hres : s.resolved = true
      · exact ⟨s, Relation.ReflTransGen.refl, hres⟩
      · match hact : s.active with
        | [] =>
            exfalso
            have hac0 : s.activeCount = 0 := by
              rw [hpost.activeCount_eq, hact]
              rfl
            have hq : s.queue = [] := by
              rcases hpost.greedy with h | h
              · exact h
              · exact absurd (hac0 ▸ h) (by omega)
            exact hres (hpost.drained_resolved hq hac0)
        | (i, t) :: rest =>
            have hmem : (i, t) ∈ s.active := by
              rw [hact]
              exact List.mem_cons_self _ _
            have hstep : Step concurrency s (settled concurrency s i t) :=
              Step.settle s i t hmem
            have hpost' := step_postinv hpost hstep
            have hsum := settled_sum concurrency s i t hmem
            obtain ⟨s', hsteps, hres'⟩ :=
              ih ((settled concurrency s i t).queue.length
                  + (settled concurrency s i t).active.length)
                (by omega) (settled concurrency s i t) hpost' rfl
            exact ⟨s', Relation.ReflTransGen.head hstep hsteps, hres'⟩

/-- C1: whatever order the tasks complete in, when the promise returned
by `run()` resolves, the results array has one entry per submitted task —
entry `i` is the settled outcome of the `i`-th task added (in submission
order) — and no entry beyond the number of submitted tasks. -/
theorem concurrencyQueue_results_in_submission_order {α : Type} [DecidableEq α]
    (concurrency : Nat) (tasks : List (TaskSpec α)) (s : QState α)
    (hreach : Reachable concurrency tasks s) (hres : s.resolved = true) :
    (∀ i, i < tasks.length → s.results i = (tasks[i]?).map TaskSpec.result) ∧
    (∀ i, tasks.length ≤ i → s.results i = none) := by
  have h := resolved_results hreach hres
  refine ⟨fun i _ => h i, fun i hi => ?_⟩
  rw [h i, List.getElem?_eq_none hi]
  rfl

/-- Witness for `concurrencyQueue_results_in_submission_order`: the
three-task run where task 1 rejects first and task 0 settles last;
results nevertheless land at their submission indices. -/
theorem concurrencyQueue_results_in_submission_order_witness :
    qs3.results 0 = some (TResult.ok 1) ∧
    qs3.results 1 = some (TResult.error "boom") ∧
    qs3.results 2 = some (TResult.ok 3) ∧
    qs3.results 3 = none := by
  have h := concurrencyQueue_results_in_submission_order 2 tasksExample qs3
    (Reachable.step (Reachable.step (Reachable.step Reachable.init
        (Step.settle qs0 1 (TaskSpec.err "boom") (by decide)))
        (Step.settle qs1 2 (TaskSpec.ok 3) (by decide)))
        (Step.settle qs2 0 (TaskSpec.ok 1) (by decide)))
    (by decide)
  refine ⟨?_, ?_, ?_, ?_⟩
  · exact (h.1 0 (by decide)).trans (by decide)
  · exact (h.1 1 (by decide)).trans (by decide)
  · exact (h.1 2 (by decide)).trans (by decide)
  · exact h.2 3 (by decide)

/-- C2: in every state the event loop can observe during `run()`, the
number of started-but-unsettled tasks never exceeds the configured
concurrency limit, and admission is greedy: whenever pending tasks
remain, every concurrency slot is in use (a state with a free slot and a
non-empty pending queue is never observable). -/
theorem concurrencyQueue_bounded {α : Type} [DecidableEq α]
    (concurrency : Nat) (tasks : List (TaskSpec α)) (s : QState α)
    (hreach : Reachable concurrency tasks s) :
    s.activeCount ≤ concurrency ∧
    (s.queue ≠ [] → s.activeCount = concurrency) := by
  have hpost := reachable_postinv hreach
  exact ⟨hpost.active_le, fun hne => hpost.greedy.resolve_left hne⟩

/-- Witness for `concurrencyQueue_bounded`: right after `run()` starts on
the three-task example, both slots are in use and one task is pending. -/
theorem concurrencyQueue_bounded_witness :
    qs0.activeCount ≤ 2 ∧ qs0.activeCount = 2 :=
  ⟨(concurrencyQueue_bounded 2 tasksExample qs0 Reachable.init).1,
   (concurrencyQueue_bounded 2 tasksExample qs0 Reachable.init).2 (by decide)⟩

/-- C3: one task rejecting never aborts the batch.  From any reachable
state (with at least one slot) the queue can drain to a resolved state;
the promise resolves only once the pending queue is empty and the active
count is zero; and at resolution a rejected task contributes the entry
`{error: message}` while every fulfilled task still contributes its
value. -/
theorem concurrencyQueue_partial_failure {α : Type} [DecidableEq α]
    (concurrency : Nat) (tasks : List (TaskSpec α)) (s : QState α)
    (i : Nat) (m : String)
    (hc : 1 ≤ concurrency) (hreach : Reachable concurrency tasks s) :
    (∃ s', Relation.ReflTransGen (Step concurrency) s s' ∧ s'.resolved = true) ∧
    (s.resolved = true → s.queue = [] ∧ s.activeCount = 0) ∧
    (s.resolved = true → tasks[i]? = some (TaskSpec.err m) →
      s.results i = some (TResult.error m) ∧
      ∀ j v, tasks[j]? = some (TaskSpec.ok v) →
        s.results j = some (TResult.ok v)) := by
  have hpost := reachable_postinv hreach
  refine ⟨drain_exists hc _ s hpost rfl, fun hres => ?_, fun hres herr => ?_⟩
  · obtain ⟨hq, ha⟩ := hpost.resolved_drained hres
    exact ⟨hq, by rw [hpost.activeCount_eq, ha]; rfl⟩
  · have h := resolved_results hreach hres
    constructor
    · rw [h i, herr]
      rfl
    · intro j v hj
      rw [h j, hj]
      rfl

/-- Witness for `concurrencyQueue_partial_failure` at the resolved state
of the three-task example: task 1 failed with "boom", yet the queue
drained, the promise resolved, and tasks 0 and 2 delivered their
values. -/
theorem concurrencyQueue_partial_failure_witness :
    qs3.queue = [] ∧ qs3.activeCount = 0 ∧
    qs3.results 1 = some (TResult.error "boom") ∧
    qs3.results 0 = some (TResult.ok 1) := by
  have h := concurrencyQueue_partial_failure 2 tasksExample qs3 1 "boom"
    (by decide)
    (Reachable.step (Reachable.step (Reachable.step Reachable.init
        (Step.settle qs0 1 (TaskSpec.err "boom") (by decide)))
        (Step.settle qs1 2 (TaskSpec.ok 3) (by decide)))
        (Step.settle qs2 0 (TaskSpec.ok 1) (by decide)))
  have h2 := h.2.1 (by decide)
  have h3 := h.2.2 (by decide) (by decide)
  exact ⟨h2.1, h2.2, h3.1, h3.2 0 1 (by decide)⟩

end PdfJs
